import Mathlib

set_option linter.unusedVariables false

/-!
Verification development for the layer resolution and merge pipeline of the
`wxt-module-layers` repository.  The TypeScript sources under `src/` are
shallowly embedded below: pure helpers become Lean functions, the filesystem
is an explicit value (`Fs`), the mutable registries (alias table, entrypoint
list, auto-import list) become explicit state threaded through folds.
-/

/- ## Character and string helpers (models of `node:path` and JS string ops) -/

/-- Split a list of characters on a separator character (model of
`String.prototype.split` with a single-character separator). -/
def splitChar (sep : Char) : List Char → List (List Char)
  | [] => [[]]
  | c :: rest =>
    let r := splitChar sep rest
    if c = sep then [] :: r
    else
      match r with
      | [] => [[c]]
      | h :: t => (c :: h) :: t

/-- Join path segments with `/` separators. -/
def joinSegs : List String → String
  | [] => ""
  | [s] => s
  | s :: rest => s ++ "/" ++ joinSegs rest

/-- The non-empty `/`-separated segments of a path. -/
def pathSegs (p : String) : List String :=
  (splitChar '/' p.toList).filterMap (fun l => if l = [] then none else some (String.mk l))

/-- Model of `node:path`'s `basename(p)`: the last non-empty `/`-segment. -/
def basename (p : String) : String :=
  (pathSegs p).getLastD ""

/-- The suffix of `l` starting at its last `.` character, if any. -/
def extFrom : List Char → Option (List Char)
  | [] => none
  | c :: rest =>
    match extFrom rest with
    | some e => some e
    | none => if c = '.' then some (c :: rest) else none

/-- Model of `node:path`'s `extname(p)`: the suffix of the basename from its
last `.`, except that a `.` in first position (hidden files) does not count. -/
def extname (p : String) : String :=
  match (basename p).toList with
  | [] => ""
  | _ :: rest =>
    match extFrom rest with
    | some e => String.mk e
    | none => ""

/-- Model of `basename(entry, extname(entry))`: the basename with its
extension (a proper suffix by construction) removed. -/
def nameWithoutExt (entry : String) : String :=
  let b := (basename entry).toList
  let e := (extname entry).toList
  String.mk (b.take (b.length - e.length))

/-- Model of `String.prototype.endsWith`. -/
def endsWithS (s suffixStr : String) : Bool :=
  suffixStr.toList.isSuffixOf s.toList

/-- Whether a path is absolute (starts with `/`). -/
def isAbs (p : String) : Bool :=
  match p.toList with
  | c :: _ => c = '/'
  | [] => false

/-- Model of `node:path`'s `resolve(base, p)` for the cases exercised here:
an absolute `p` stands alone, a relative one is joined onto `base`
(`..`-normalisation is not exercised by the sources and not modelled). -/
def resolvePath (base p : String) : String :=
  if isAbs p then p else base ++ "/" ++ p

/-- Model of `node:path`'s `join(a, b)` for already-normalised arguments. -/
def joinPath (a b : String) : String :=
  a ++ "/" ++ b

/-- Strip the shared leading segments of two segment lists. -/
def stripShared : List String → List String → List String × List String
  | a :: as, b :: bs => if a = b then stripShared as bs else (a :: as, b :: bs)
  | as, bs => (as, bs)

/-- Model of `node:path`'s `relative(fromP, toP)` for absolute inputs: drop
the common segments, then climb with `..` and descend into the rest. -/
def relativePath (fromP toP : String) : String :=
  let fSegs := pathSegs fromP
  let tSegs := pathSegs toP
  let rests := stripShared fSegs tSegs
  joinSegs (rests.1.map (fun _ => "..") ++ rests.2)

/-- Auxiliary for template interpolation: replace every occurrence of the
literal `{name}` (the regex `/\{name}/g` of `module.ts`). -/
def replaceNameAux : List Char → List Char → List Char
  | '{' :: 'n' :: 'a' :: 'm' :: 'e' :: '}' :: rest, n => n ++ replaceNameAux rest n
  | c :: rest, n => c :: replaceNameAux rest n
  | [], _ => []

/-- Model of `interpolateLayerName` from `module.ts`: substitute the layer
name for each `{name}` placeholder in the template. -/
def interpolateLayerName (template layerName : String) : String :=
  String.mk (replaceNameAux template.toList layerName.toList)

/-- Model of `key.split('.')[0]` from `resolveEntrypoints` in
`filesystem.ts`: the portion of the key before the first `.`. -/
def keyName (key : String) : String :=
  String.mk ((splitChar '.' key.toList).headD [])

/- ## Entrypoint data model -/

/-- The closed set of entrypoint kinds recognised by the module
(`determineEntrypointType` in `filesystem.ts`). -/
inductive EntrypointType where
  | background
  | contentScript
  | popup
  | options
  | newtab
  | devtools
  | bookmarks
  | history
  | sidepanel
  | sandbox
  | unlistedPage
  | unlistedScript
  | unlistedStyle
deriving DecidableEq, Repr

/-- One entrypoint handed to the host build tool (`EntrypointInfo` of wxt). -/
structure EntrypointInfo where
  name : String
  inputPath : String
  type : EntrypointType
deriving DecidableEq, Repr

/-- The stylesheet extensions recognised by `determineEntrypointType`. -/
def styleExts : List String :=
  [".css", ".scss", ".sass", ".less", ".styl", ".stylus"]

/-- Direct transliteration of `determineEntrypointType` from
`src/filesystem.ts` (lines 151-177): stylesheet extensions first, then
`.html` names against the fixed page list and the `.sidepanel` / `.sandbox`
suffix rules, then script names, first match winning. -/
def determineEntrypointType (name ext : String) : EntrypointType :=
  if styleExts.contains ext then .unlistedStyle
  else if ext = ".html" then
    if name = "popup" then .popup
    else if name = "options" then .options
    else if name = "newtab" then .newtab
    else if name = "devtools" then .devtools
    else if name = "bookmarks" then .bookmarks
    else if name = "history" then .history
    else if endsWithS name ".sidepanel" || name = "sidepanel" then .sidepanel
    else if endsWithS name ".sandbox" || name = "sandbox" then .sandbox
    else .unlistedPage
  else if name = "background" then .background
  else if endsWithS name ".content" || name = "content" then .contentScript
  else .unlistedScript

/- ## Filesystem model -/

/-- An explicit filesystem: directories with their entry names, plus plain
files, all keyed by absolute path.  `existsSync`, `readdirSync` and
`statSync(..).isDirectory()` are read-only queries against this value. -/
structure Fs where
  dirs : List (String × List String)
  files : List String
deriving DecidableEq, Repr

/-- Model of `existsSync`. -/
def existsSync (fs : Fs) (p : String) : Bool :=
  fs.files.contains p || fs.dirs.any (fun d => d.1 == p)

/-- Model of `readdirSync` (empty for paths that are not known directories). -/
def readdirSync (fs : Fs) (p : String) : List String :=
  ((fs.dirs.find? (fun d => d.1 == p)).map (fun d => d.2)).getD []

/-- Model of `statSync(p).isDirectory()`. -/
def isDirectory (fs : Fs) (p : String) : Bool :=
  fs.dirs.any (fun d => d.1 == p)

/-- The language of the regex `/^(index)\.(ts|tsx|js|jsx|html|css|scss|sass|less)$/`
used by `scanLayerEntrypoints` to find a directory's index file. -/
def isIndexFile (entry : String) : Bool :=
  ["index.ts", "index.tsx", "index.js", "index.jsx", "index.html",
   "index.css", "index.scss", "index.sass", "index.less"].contains entry

/-- The `(inputPath, name)` pair derived for one directory entry by the scan
loop of `scanLayerEntrypoints` (`filesystem.ts` lines 78-102): a directory
contributes its index file and its own name, a file contributes itself and
its basename minus extension; a directory without index contributes the
empty pair, which the final guard drops. -/
def scanEntryPair (fs : Fs) (entrypointsDir entry : String) : String × String :=
  let fullPath := joinPath entrypointsDir entry
  if isDirectory fs fullPath then
    match (readdirSync fs fullPath).find? isIndexFile with
    | some indexFile => (joinPath fullPath indexFile, entry)
    | none => ("", "")
  else (joinPath entrypointsDir entry, nameWithoutExt entry)

/-- The final guard of the scan loop, `if (inputPath && name)`: both derived
strings must be truthy (non-empty). -/
def scanEntryOk (pair : String × String) : Bool :=
  !(pair.1 == "") && !(pair.2 == "")

/-- Transliteration of `scanLayerEntrypoints` from `src/filesystem.ts`
(lines 67-116): scan the conventional `entrypoints` subfolder and classify
each accepted entry.  No de-duplication is performed. -/
def scanLayerEntrypoints (fs : Fs) (layerPath : String) : List EntrypointInfo :=
  let entrypointsDir := joinPath layerPath "entrypoints"
  if existsSync fs entrypointsDir then
    (readdirSync fs entrypointsDir).filterMap (fun entry =>
      let pair := scanEntryPair fs entrypointsDir entry
      if scanEntryOk pair then
        some { name := pair.2, inputPath := pair.1,
               type := determineEntrypointType pair.2 (extname pair.1) }
      else none)
  else []

/-- Just the name derived for one directory entry by the scan (used to state
what `scanLayerEntrypoints` returns, entry by entry). -/
def scanEntryName (fs : Fs) (entrypointsDir entry : String) : Option String :=
  let pair := scanEntryPair fs entrypointsDir entry
  if scanEntryOk pair then some pair.2 else none

/-- Transliteration of `resolveEntrypoints` from `src/filesystem.ts`
(lines 124-146): resolve each declared `key → relative path` entry against
the layer directory, keep those whose resolved path exists, name each result
`key.split('.')[0]`, and classify using the full key and the resolved
path's extension. -/
def resolveEntrypoints (fs : Fs) (config : List (String × String)) (layerPath : String) :
    List EntrypointInfo :=
  config.filterMap (fun kp =>
    if kp.2 ≠ "" then
      let inputPath := resolvePath layerPath kp.2
      if existsSync fs inputPath then
        some { name := keyName kp.1, inputPath := inputPath,
               type := determineEntrypointType kp.1 (extname inputPath) }
      else none
    else none)

/- ## Source normalisation -/

/-- Per-source options (`SourceOptions` of `types.ts`): the source path plus
the common cascading options.  Absent TypeScript fields are `none`. -/
structure SourceOptions where
  source : String
  sourceAlias : Option String := none
  layerAlias : Option String := none
  autoImports : Option (List String) := none
  entrypoints : Option (List (String × String)) := none
  publicPrefix : Option String := none
deriving DecidableEq, Repr

/-- One element of the `sources` array: a bare path string or an options
object. -/
inductive SourceItem where
  | str (s : String)
  | opts (o : SourceOptions)
deriving DecidableEq, Repr

/-- The `sources` input of the module: `undefined`, a bare string, or an
array of strings and objects. -/
inductive SourcesInput where
  | undef
  | single (s : String)
  | many (items : List SourceItem)
deriving DecidableEq, Repr

/-- The source path declared by an item. -/
def itemSource : SourceItem → String
  | .str s => s
  | .opts o => o.source

/-- The source alias declared by an item (bare strings declare none). -/
def itemAlias : SourceItem → Option String
  | .str _ => none
  | .opts o => o.sourceAlias

/-- Transliteration of `resolveSources` from `src/filesystem.ts` (lines
8-20): default the input to `'layers/*'`, wrap it into an array, turn bare
strings into option objects, then resolve each source path against the root
directory and default `sourceAlias` to the template `#{name}`. -/
def resolveSources (rootDir : String) (sources : SourcesInput) : List SourceOptions :=
  let arr : List SourceItem :=
    match sources with
    | .undef => [.str "layers/*"]
    | .single s => [.str s]
    | .many items => items
  (arr.map (fun input =>
      match input with
      | .str s => { source := s : SourceOptions }
      | .opts o => o)).map
    (fun input =>
      { input with
        sourceAlias := some ((input.sourceAlias).getD "#{name}"),
        source := resolvePath rootDir input.source })

/- ## The options cascade -/

/-- The per-layer option record over which the module/source/layer cascade
runs (`LayerOptions` of `types.ts`): every field optional, absent = `none`. -/
structure LayerOptions where
  layerAlias : Option String := none
  autoImports : Option (List String) := none
  entrypoints : Option (List (String × String)) := none
  publicPrefix : Option String := none
  order : Option Int := none
deriving DecidableEq, Repr

/-- Merge policy of `shallowMerge` for scalar fields: a value present in the
higher-precedence object overrides, an absent one keeps the target. -/
def overrideF {α : Type} (t s : Option α) : Option α :=
  match s with
  | none => t
  | some v => some v

/-- Merge policy of `shallowMerge` for array fields: when both sides carry an
array they concatenate (`[...target, ...source]`), else the present one wins. -/
def concatF {α : Type} (t s : Option (List α)) : Option (List α) :=
  match s with
  | none => t
  | some sv =>
    match t with
    | none => some sv
    | some tv => some (tv ++ sv)

/-- First-match association lookup (model of JS object property access on the
insertion-ordered entry list). -/
def lookupA (l : List (String × String)) (k : String) : Option String :=
  (l.find? (fun p => p.1 == k)).map (fun p => p.2)

/-- Model of the object spread `{ ...target, ...source }` on insertion-ordered
entry lists: target keys keep their positions (values overridden where the
source also has the key), new source keys are appended in source order. -/
def spreadMerge (t s : List (String × String)) : List (String × String) :=
  (t.map (fun kv => (kv.1, (lookupA s kv.1).getD kv.2))) ++
    s.filter (fun kv => (lookupA t kv.1).isNone)

/-- Merge policy of `shallowMerge` for object fields: spread-merge when both
sides carry an object, else the present one wins. -/
def unionF (t s : Option (List (String × String))) : Option (List (String × String)) :=
  match s with
  | none => t
  | some sv =>
    match t with
    | none => some sv
    | some tv => some (spreadMerge tv sv)

/-- Transliteration of `shallowMerge` (the `@davestewart/wxt-utils` helper
bundled at `module.ts` lines 456-469), specialised to the layer option
record: for each field present in `source`, arrays concatenate, objects
spread-merge, and any other value overrides the target. -/
def shallowMergeOpts (t s : LayerOptions) : LayerOptions where
  layerAlias := overrideF t.layerAlias s.layerAlias
  autoImports := concatF t.autoImports s.autoImports
  entrypoints := unionF t.entrypoints s.entrypoints
  publicPrefix := overrideF ( LayerOptions.publicPrefix t) ( LayerOptions.publicPrefix s)
  order := overrideF t.order s.order

/-- Modelled from the spec: the options cascade performed by `resolveLayers`,
whose definition is absent from `src/` (only its call site
`resolveLayers(layerSources, options)` in `module.ts` and the `shallowMerge`
helper it is documented against survive).  Per the spec, module-level,
source-level and layer-level options are merged in increasing precedence,
each option by its own merge policy, which is `shallowMerge`'s: scalars
override, arrays concatenate (the spec's accumulating `autoImportFolders`),
objects merge keywise. -/
def cascadeLayerOptions (moduleOpts sourceOpts layerOpts : LayerOptions) : LayerOptions :=
  shallowMergeOpts (shallowMergeOpts (shallowMergeOpts {} moduleOpts) sourceOpts) layerOpts

/- ## Alias registration -/

/-- JS property assignment on an insertion-ordered table: overwrite in place
when the key exists, append otherwise. -/
def setA : List (String × String) → String → String → List (String × String)
  | [], k, v => [(k, v)]
  | kv :: rest, k, v => if kv.1 == k then (k, v) :: rest else kv :: setA rest k v

/-- Transliteration of `setAlias` from `module.ts` (lines 79-95): a falsy
alias (absent or empty) registers nothing; otherwise the key is the alias
template interpolated with the path's basename, and the assignment is
skipped when the key is already bound to a truthy (non-empty) value. -/
def setAlias (table : List (String × String)) (path : String) (aliasOpt : Option String) :
    List (String × String) :=
  match aliasOpt with
  | none => table
  | some a =>
    if a = "" then table
    else
      let key := interpolateLayerName a (basename path)
      match lookupA table key with
      | some v => if v = "" then setA table key path else table
      | none => setA table key path

/-- A whole pass of alias registrations (source aliases then layer aliases in
`module.setup`), starting from an empty table. -/
def registerAliases (regs : List (String × Option String)) : List (String × String) :=
  regs.foldl (fun t r => setAlias t r.1 r.2) []

/-- The path of the first registration in `regs` that actually targets key
`k` (non-falsy alias whose interpolated key is `k`) — the binding the spec
says the table must keep. -/
def firstRegistration (regs : List (String × Option String)) (k : String) : Option String :=
  (regs.find? (fun r =>
    match r.2 with
    | none => false
    | some a => !(a == "") && interpolateLayerName a (basename r.1) == k)).map (fun r => r.1)

/-- `Option` fallback used to state lookup facts. -/
def orElseO {α : Type} (a b : Option α) : Option α :=
  match a with
  | some v => some v
  | none => b

/- ## Per-layer entrypoint collection and the entrypoints:found hook -/

/-- An entrypoint collected from a layer, together with its layer name and
resolution order (`LayerEntrypointInfo` of `module.ts`). -/
structure LayerEntrypointInfo where
  order : Int
  layerName : String
  entrypointName : String
  info : EntrypointInfo
deriving DecidableEq, Repr

/-- Transliteration of the entrypoint collection loop of `module.setup`
(`module.ts` lines 179-194): each of a layer's entrypoints is recorded with
the layer name and the layer's effective `order`, defaulting to `100` when
unset. -/
def collectLayerEntrypoints (layerName : String) (ord : Option Int)
    (layerEntrypoints : List EntrypointInfo) : List LayerEntrypointInfo :=
  layerEntrypoints.map (fun e =>
    { layerName := layerName, entrypointName := e.name,
      order := ord.getD 100, info := e })

/-- The reserved identity of the virtual background module. -/
def MODULE_NAME : String := "wxt-module-layers:background"

/-- The virtual background entrypoint pushed by the `entrypoints:found` hook
(`module.ts` lines 381-385). -/
def virtualBackground : EntrypointInfo :=
  { name := "background", inputPath := MODULE_NAME, type := .background }

/-- The collected layer entrypoints of kind `background`, in discovery
order (`layerBackgrounds` of the hook). -/
def layerBackgroundsOf (all : List LayerEntrypointInfo) : List LayerEntrypointInfo :=
  all.filter (fun e => e.info.type == .background)

/-- Transliteration of the `entrypoints:found` hook of `module.setup`
(`module.ts` lines 350-401): push every collected non-background layer
entrypoint onto the host's list; then, when the resulting list holds no
background entrypoint and at least one layer background was held back, push
the single virtual background entrypoint.  No name-uniqueness check is
performed anywhere in the hook. -/
def entrypointsFoundHook (host : List EntrypointInfo) (all : List LayerEntrypointInfo) :
    List EntrypointInfo :=
  let layerBackgrounds := layerBackgroundsOf all
  let infos := host ++
    (all.filter (fun e => !(e.info.type == .background))).map (fun e => e.info)
  let existingBackground := infos.find? (fun e => e.type == .background)
  if existingBackground.isNone && !layerBackgrounds.isEmpty then
    infos ++ [virtualBackground]
  else infos

/-- Model of `layerBackgrounds.sort((a, b) => a.order - b.order)` at
`module.ts` line 388: ascending by `order`; `Array.prototype.sort` is
stable (ES2019), which `List.insertionSort` with a non-strict comparison
realises — ties keep discovery order. -/
def sortedLayerBackgrounds (all : List LayerEntrypointInfo) : List LayerEntrypointInfo :=
  List.insertionSort (fun a b => a.order ≤ b.order) (layerBackgroundsOf all)

/-- Model of the `runAll` loop of the generated virtual background module
(`module.ts` lines 304-324): the handlers run strictly one after the other,
each receiving the previous handler's (awaited) result. -/
def runAll {α : Type} (handlers : List (α → α)) (init : α) : α :=
  handlers.foldl (fun prevResult handler => handler prevResult) init

/- ## Auto-import directory aggregation -/

/-- Transliteration of the auto-import part of the `config:resolved` hook
(`module.ts` lines 420-427): for each collected absolute layer directory,
skip it when `dirs` already `includes` the absolute path, else push the path
relative to `srcDir`. -/
def addAutoImportDirs (srcDir : String) (dirs0 paths : List String) : List String :=
  paths.foldl (fun dirs importPath =>
    if dirs.contains importPath then dirs
    else dirs ++ [relativePath srcDir importPath]) dirs0

/- ## Generic lemmas about the association-list and option helpers -/

theorem orElseO_none_right {α : Type} (a : Option α) : orElseO a none = a := by
  cases a <;> rfl

theorem orElseO_assoc {α : Type} (a b c : Option α) :
    orElseO (orElseO a b) c = orElseO a (orElseO b c) := by
  cases a <;> rfl

theorem lookupA_nil (k : String) : lookupA [] k = none := rfl

theorem lookupA_cons (kv : String × String) (l : List (String × String)) (k : String) :
    lookupA (kv :: l) k = if kv.1 == k then some kv.2 else lookupA l k := by
  simp only [lookupA, List.find?]
  by_cases h : kv.1 == k
  · simp [h]
  · simp [h]

theorem lookupA_append (l₁ l₂ : List (String × String)) (k : String) :
    lookupA (l₁ ++ l₂) k = orElseO (lookupA l₁ k) (lookupA l₂ k) := by
  induction l₁ with
  | nil => simp [lookupA_nil, orElseO]
  | cons kv rest ih =>
    rw [List.cons_append, lookupA_cons, lookupA_cons]
    by_cases h : kv.1 == k
    · simp [h, orElseO]
    · simp [h, ih]

theorem setA_of_lookup_none (t : List (String × String)) (k v : String)
    (h : lookupA t k = none) : setA t k v = t ++ [(k, v)] := by
  induction t with
  | nil => rfl
  | cons kv rest ih =>
    rw [lookupA_cons] at h
    by_cases hk : kv.1 == k
    · simp [hk] at h
    · simp only [setA, hk, if_neg, Bool.false_eq_true, ite_false, List.cons_append,
        List.cons.injEq, true_and]
      exact ih (by simpa [hk] using h)

theorem firstRegistration_cons (r : String × Option String)
    (rs : List (String × Option String)) (k : String) :
    firstRegistration (r :: rs) k =
      (match r.2 with
       | none => firstRegistration rs k
       | some a =>
         if (!(a == "") && interpolateLayerName a (basename r.1) == k) then some r.1
         else firstRegistration rs k) := by
  cases h : r.2 with
  | none => simp [firstRegistration, List.find?, h]
  | some a =>
    by_cases hc : (!(a == "") && interpolateLayerName a (basename r.1) == k)
    · simp [firstRegistration, List.find?, h, hc]
    · simp [firstRegistration, List.find?, h, hc]

theorem lookupA_mem (t : List (String × String)) (k v : String)
    (h : lookupA t k = some v) : (k, v) ∈ t := by
  induction t with
  | nil => simp [lookupA_nil] at h
  | cons kv rest ih =>
    rw [lookupA_cons] at h
    by_cases hk : kv.1 == k
    · have hk' : kv.1 = k := by simpa using hk
      have hv : kv.2 = v := by simpa [hk] using h
      have : kv = (k, v) := by
        cases kv
        simp_all
      rw [← this]
      exact List.mem_cons_self kv rest
    · exact List.mem_cons_of_mem kv (ih (by simpa [hk] using h))

theorem registerAliases_go (regs : List (String × Option String)) :
    ∀ t : List (String × String), (∀ r ∈ regs, r.1 ≠ "") → (∀ kv ∈ t, kv.2 ≠ "") →
      ∀ k, lookupA (regs.foldl (fun t r => setAlias t r.1 r.2) t) k =
        orElseO (lookupA t k) (firstRegistration regs k) := by
  induction regs with
  | nil =>
    intro t _ _ k
    simp [firstRegistration, List.find?, orElseO_none_right]
  | cons r rs ih =>
    obtain ⟨p, aopt⟩ := r
    intro t hregs ht k
    rw [List.foldl_cons, firstRegistration_cons]
    have hp : p ≠ "" := hregs (p, aopt) (List.mem_cons_self _ rs)
    have hrs : ∀ r ∈ rs, r.1 ≠ "" := fun x hx => hregs x (List.mem_cons_of_mem _ hx)
    cases aopt with
    | none =>
      have hstep : setAlias t (p, (none : Option String)).1 none = t := rfl
      simp only [hstep]
      exact ih t hrs ht k
    | some a =>
      by_cases hae : a = ""
      · have hstep : setAlias t (p, (some a : Option String)).1 (some a) = t := by
          simp [setAlias, hae]
        simp only [hstep]
        have := ih t hrs ht k
        simpa [hae] using this
      · have hane : (a == "") = false := by simpa using hae
        set key := interpolateLayerName a (basename p) with hkey
        cases hlk : lookupA t key with
        | some v =>
          have hv : v ≠ "" := ht (key, v) (lookupA_mem t key v hlk)
          have hstep : setAlias t (p, (some a : Option String)).1 (some a) = t := by
            simp only [setAlias, hae, ite_false]
            rw [← hkey, hlk]
            simp [hv]
          simp only [hstep]
          have hmain := ih t hrs ht k
          rw [hmain]
          by_cases hkk : key == k
          · have hke : key = k := by simpa using hkk
            subst hke
            rw [hlk]
            simp [orElseO, hane, hkk]
          · simp [hane, hkk]
        | none =>
          have hstep : setAlias t (p, (some a : Option String)).1 (some a) =
              t ++ [(key, p)] := by
            simp only [setAlias, hae, ite_false]
            rw [← hkey, hlk, setA_of_lookup_none t key p hlk]
          simp only [hstep]
          have ht' : ∀ kv ∈ t ++ [(key, p)], kv.2 ≠ "" := by
            intro kv hkv
            rcases List.mem_append.1 hkv with h | h
            · exact ht kv h
            · simp at h
              subst h
              simpa using hp
          have hmain := ih (t ++ [(key, p)]) hrs ht' k
          rw [hmain, lookupA_append, orElseO_assoc]
          congr 1
          rw [lookupA_cons, lookupA_nil]
          by_cases hkk : key == k
          · simp [hkk, orElseO, hane]
          · simp [hkk, hane, orElseO]

/-- Claim C7: for every sequence of alias registrations — each with a
non-empty path, as at every call site of `setAlias` the path is an absolute
filesystem path — the alias table maps each key to the path of the first
registration attempted under that key, and a registration attempt for a key
already bound to a non-empty value leaves the table unchanged (first
registration wins, later ones are dropped). -/
theorem aliasTable_firstWins (regs : List (String × Option String))
    (hpaths : ∀ r ∈ regs, r.1 ≠ "") :
    (∀ k, lookupA (registerAliases regs) k = firstRegistration regs k) ∧
    (∀ (t : List (String × String)) (p a v : String),
      lookupA t (interpolateLayerName a (basename p)) = some v → v ≠ "" →
      setAlias t p (some a) = t) := by
  constructor
  · intro k
    have h := registerAliases_go regs [] hpaths (by simp) k
    simpa [registerAliases, lookupA_nil, orElseO] using h
  · intro t p a v hlk hv
    by_cases hae : a = ""
    · simp [setAlias, hae]
    · simp [setAlias, hae, hlk, hv]

/-- Concrete run of `aliasTable_firstWins`: two layers named `demo` from
different sources both interpolate the default template to the key `#demo`;
the table keeps the first path. -/
theorem aliasTable_firstWins_witness :
    lookupA (registerAliases
      [("/proj/layers/demo", some "#{name}"), ("/proj/other/demo", some "#{name}")])
      "#demo" = some "/proj/layers/demo" := by
  have h := aliasTable_firstWins
    [("/proj/layers/demo", some "#{name}"), ("/proj/other/demo", some "#{name}")]
    (by decide)
  rw [h.1 "#demo"]
  decide

/- ## Lemmas about the option cascade -/

theorem overrideF_eq {α : Type} (t s : Option α) : overrideF t s = orElseO s t := by
  cases s <;> rfl

theorem concatF_getD {α : Type} (t s : Option (List α)) :
    (concatF t s).getD [] = t.getD [] ++ s.getD [] := by
  cases s <;> cases t <;> simp [concatF]

theorem lookupA_spreadMapped (t s : List (String × String)) (k : String) :
    lookupA (t.map (fun kv => (kv.1, (lookupA s kv.1).getD kv.2))) k =
      match lookupA t k with
      | some v => some ((lookupA s k).getD v)
      | none => none := by
  induction t with
  | nil => simp [lookupA_nil]
  | cons kv rest ih =>
    rw [List.map_cons, lookupA_cons, lookupA_cons]
    by_cases hk : kv.1 == k
    · have he : kv.1 = k := by simpa using hk
      simp [hk, he]
    · simp [hk, ih]

theorem lookupA_filterNew (t s : List (String × String)) (k : String) :
    lookupA (s.filter (fun kv => (lookupA t kv.1).isNone)) k =
      if (lookupA t k).isNone then lookupA s k else none := by
  induction s with
  | nil => simp [lookupA_nil]
  | cons kv rest ih =>
    rw [List.filter_cons]
    by_cases hkeep : (lookupA t kv.1).isNone
    · rw [if_pos (by simpa using hkeep)]
      rw [lookupA_cons, lookupA_cons]
      by_cases hk : kv.1 == k
      · have he : kv.1 = k := by simpa using hk
        rw [← he]
        simp [hk, hkeep]
      · simp [hk, ih]
    · rw [if_neg (by simpa using hkeep)]
      rw [ih, lookupA_cons]
      by_cases hk : kv.1 == k
      · have he : kv.1 = k := by simpa using hk
        rw [← he]
        simp [hkeep]
      · simp [hk]

theorem lookupA_spreadMerge (t s : List (String × String)) (k : String) :
    lookupA (spreadMerge t s) k = orElseO (lookupA s k) (lookupA t k) := by
  simp only [spreadMerge]
  rw [lookupA_append, lookupA_spreadMapped, lookupA_filterNew]
  cases hlt : lookupA t k <;> cases hls : lookupA s k <;> simp [orElseO]

theorem lookupA_unionF (t s : Option (List (String × String))) (k : String) :
    lookupA ((unionF t s).getD []) k =
      orElseO (lookupA (s.getD []) k) (lookupA (t.getD []) k) := by
  cases s with
  | none => simp [unionF, lookupA_nil, orElseO]
  | some sv =>
    cases t with
    | none => simp [unionF, lookupA_nil, orElseO_none_right]
    | some tv => simp [unionF, lookupA_spreadMerge]

/-- Claim C2 (amended): in the module→source→layer options cascade, each
scalar field (alias template, public-prefix template, order) takes the
layer-level value when set, else the source-level value, else the
module-level value; the array-valued field `autoImports` instead
concatenates the module, source and layer contributions in that order; the
object-valued field `entrypoints` merges keywise, the higher level winning
per key. -/
theorem cascade_fieldwise (m s l : LayerOptions) :
    (cascadeLayerOptions m s l).layerAlias =
      orElseO l.layerAlias (orElseO s.layerAlias m.layerAlias)
    ∧ LayerOptions.publicPrefix (cascadeLayerOptions m s l) =
        orElseO ( LayerOptions.publicPrefix l)
          (orElseO ( LayerOptions.publicPrefix s) ( LayerOptions.publicPrefix m))
    ∧ (cascadeLayerOptions m s l).order = orElseO l.order (orElseO s.order m.order)
    ∧ ((cascadeLayerOptions m s l).autoImports).getD [] =
        m.autoImports.getD [] ++ s.autoImports.getD [] ++ l.autoImports.getD []
    ∧ ∀ k, lookupA (((cascadeLayerOptions m s l).entrypoints).getD []) k =
        orElseO (lookupA (l.entrypoints.getD []) k)
          (orElseO (lookupA (s.entrypoints.getD []) k) (lookupA (m.entrypoints.getD []) k)) := by
  refine ⟨?_, ?_, ?_, ?_, ?_⟩
  · simp [cascadeLayerOptions, shallowMergeOpts, overrideF_eq, orElseO_none_right]
  · simp [cascadeLayerOptions, shallowMergeOpts, overrideF_eq, orElseO_none_right]
  · simp [cascadeLayerOptions, shallowMergeOpts, overrideF_eq, orElseO_none_right]
  · simp [cascadeLayerOptions, shallowMergeOpts, concatF_getD]
  · intro k
    simp only [cascadeLayerOptions, shallowMergeOpts]
    rw [lookupA_unionF, lookupA_unionF, lookupA_unionF]
    simp [lookupA_nil, orElseO_none_right]

/-- Refutation of claim C2 as stated: with all three levels setting the
`autoImports` field to distinct sentinels, the effective value concatenates
all three rather than being the layer-level value. -/
theorem cascade_counterexample :
    (cascadeLayerOptions { autoImports := some ["m-dir"] } { autoImports := some ["s-dir"] }
      { autoImports := some ["l-dir"] }).autoImports = some ["m-dir", "s-dir", "l-dir"]
    ∧ (some ["m-dir", "s-dir", "l-dir"] : Option (List String)) ≠ some ["l-dir"] := by
  decide

/-- Claim C3: the entrypoint classifier maps the reference table exactly —
('background','.ts') to background, ('popup','.html') to popup,
('x.content','.ts') to content-script, ('x.sidepanel','.html') to sidepanel,
('styles','.scss') to unlisted-style, ('random','.ts') to unlisted-script —
and the decision order holds: a stylesheet extension wins over any name, and
an '.html' extension routes the name to the page rules rather than the
script rules. -/
theorem classifier_table :
    determineEntrypointType "background" ".ts" = .background
    ∧ determineEntrypointType "popup" ".html" = .popup
    ∧ determineEntrypointType "x.content" ".ts" = .contentScript
    ∧ determineEntrypointType "x.sidepanel" ".html" = .sidepanel
    ∧ determineEntrypointType "styles" ".scss" = .unlistedStyle
    ∧ determineEntrypointType "random" ".ts" = .unlistedScript
    ∧ determineEntrypointType "popup" ".scss" = .unlistedStyle
    ∧ determineEntrypointType "background" ".html" = .unlistedPage := by
  decide

/-- Claim C8 (code bug): evaluating the entrypoint collection of
`module.setup` on a layer whose effective options leave `order` unset
assigns the default 100, not the documented default 50. -/
theorem order_default_is_100 :
    (collectLayerEntrypoints "demo" none
      [{ name := "background", inputPath := "/proj/layers/demo/entrypoints/background.ts",
         type := .background }]).map (fun le => le.order) = [100]
    ∧ (100 : Int) ≠ 50 := by
  decide

/-- Claim C9 (code bug): evaluating the auto-import aggregation of the
`config:resolved` hook on the same absolute directory collected twice: the
`includes` guard compares the absolute path against a list that only ever
receives `srcDir`-relative paths, so it never fires and the duplicate is
appended twice. -/
theorem autoImport_duplicates_kept :
    addAutoImportDirs "/root/src" [] ["/root/layers/a/utils", "/root/layers/a/utils"] =
      ["../layers/a/utils", "../layers/a/utils"]
    ∧ ¬ (addAutoImportDirs "/root/src" []
          ["/root/layers/a/utils", "/root/layers/a/utils"]).Nodup := by
  decide

/-- Refutation of claim C1 as stated: two layers contributing entrypoints
with the same name pass through the `entrypoints:found` hook untouched —
the produced list holds both equally-named entries and no fatal path is
taken (the hook is a total function returning the duplicated list). -/
theorem hook_duplicate_names_counterexample :
    ((entrypointsFoundHook []
      [{ order := 100, layerName := "feature-a", entrypointName := "popup",
         info := { name := "popup", inputPath := "/proj/layers/feature-a/entrypoints/popup.html",
                   type := .popup } },
       { order := 100, layerName := "feature-b", entrypointName := "popup",
         info := { name := "popup", inputPath := "/proj/layers/feature-b/entrypoints/popup.html",
                   type := .popup } }]).map (fun e => e.name)) = ["popup", "popup"]
    ∧ ¬ ((entrypointsFoundHook []
      [{ order := 100, layerName := "feature-a", entrypointName := "popup",
         info := { name := "popup", inputPath := "/proj/layers/feature-a/entrypoints/popup.html",
                   type := .popup } },
       { order := 100, layerName := "feature-b", entrypointName := "popup",
         info := { name := "popup", inputPath := "/proj/layers/feature-b/entrypoints/popup.html",
                   type := .popup } }]).map (fun e => e.name)).Nodup := by
  decide

/-- Claim C1 (amended): the `entrypoints:found` hook performs no uniqueness
check — every host entry and every non-background layer entrypoint is kept
in the produced list (nothing is dropped, renamed or silently resolved),
duplicate names included; collision detection is left to the host build
tool. -/
theorem hook_keeps_all_entries (host : List EntrypointInfo)
    (all : List LayerEntrypointInfo) :
    (∃ rest, entrypointsFoundHook host all = host ++ rest)
    ∧ (∀ le ∈ all, le.info.type ≠ EntrypointType.background →
        le.info ∈ entrypointsFoundHook host all) := by
  constructor
  · by_cases hc :
      ((host ++ (all.filter (fun e => !(e.info.type == EntrypointType.background))).map
        (fun e => e.info)).find? (fun e => e.type == EntrypointType.background)).isNone
        && !(layerBackgroundsOf all).isEmpty
    · exact ⟨(all.filter (fun e => !(e.info.type == EntrypointType.background))).map
        (fun e => e.info) ++ [virtualBackground], by
          simp only [entrypointsFoundHook, hc, if_true]
          simp [List.append_assoc]⟩
    · have hc' :
        (((host ++ (all.filter (fun e => !(e.info.type == EntrypointType.background))).map
          (fun e => e.info)).find? (fun e => e.type == EntrypointType.background)).isNone
          && !(layerBackgroundsOf all).isEmpty) = false := by
        simpa using hc
      exact ⟨(all.filter (fun e => !(e.info.type == EntrypointType.background))).map
        (fun e => e.info), by
          simp only [entrypointsFoundHook, hc', Bool.false_eq_true, if_false]⟩
  · intro le hle htype
    have hmem : le.info ∈ host ++
        (all.filter (fun e => !(e.info.type == EntrypointType.background))).map
          (fun e => e.info) := by
      apply List.mem_append_right
      exact List.mem_map_of_mem _ (List.mem_filter.2 ⟨hle, by simpa using htype⟩)
    simp only [entrypointsFoundHook]
    split
    · exact List.mem_append_left _ hmem
    · exact hmem

/-- Concrete run of `hook_keeps_all_entries`: a layer popup entrypoint
survives into the hook's output. -/
theorem hook_keeps_all_entries_witness :
    ({ name := "popup", inputPath := "/p.html", type := .popup } : EntrypointInfo) ∈
      entrypointsFoundHook []
        [{ order := 100, layerName := "a", entrypointName := "popup",
           info := { name := "popup", inputPath := "/p.html", type := .popup } }] := by
  exact (hook_keeps_all_entries []
    [{ order := 100, layerName := "a", entrypointName := "popup",
       info := { name := "popup", inputPath := "/p.html", type := .popup } }]).2
    { order := 100, layerName := "a", entrypointName := "popup",
      info := { name := "popup", inputPath := "/p.html", type := .popup } }
    (by decide) (by decide)

/- ## Lemmas about the background sort and the virtual background -/

instance : IsTotal LayerEntrypointInfo (fun a b => a.order ≤ b.order) :=
  ⟨fun a b => Int.le_total a.order b.order⟩

instance : IsTrans LayerEntrypointInfo (fun a b => a.order ≤ b.order) :=
  ⟨fun _ _ _ h₁ h₂ => le_trans h₁ h₂⟩

theorem orderedInsert_filter_order (x : LayerEntrypointInfo)
    (l : List LayerEntrypointInfo) (k : Int) :
    (List.orderedInsert (fun a b => a.order ≤ b.order) x l).filter (fun e => e.order == k) =
      if x.order == k then x :: l.filter (fun e => e.order == k)
      else l.filter (fun e => e.order == k) := by
  induction l with
  | nil =>
    by_cases hx : x.order == k
    · simp [List.orderedInsert, List.filter, hx]
    · simp [List.orderedInsert, List.filter, hx]
  | cons y ys ih =>
    simp only [List.orderedInsert]
    by_cases hle : x.order ≤ y.order
    · rw [if_pos hle]
      by_cases hx : x.order == k
      · simp [List.filter_cons, hx]
      · simp [List.filter_cons, hx]
    · rw [if_neg hle]
      by_cases hx : x.order == k
      · have hxk : x.order = k := by simpa using hx
        have hyk : (y.order == k) = false := by
          have hlt : y.order < x.order := lt_of_not_le hle
          have hne : y.order ≠ k := by omega
          simpa using hne
        simp [List.filter_cons, hyk, ih, hx]
      · by_cases hy : y.order == k
        · simp [List.filter_cons, hy, ih, hx]
        · simp [List.filter_cons, hy, ih, hx]

theorem insertionSort_filter_order (l : List LayerEntrypointInfo) (k : Int) :
    (List.insertionSort (fun a b => a.order ≤ b.order) l).filter (fun e => e.order == k) =
      l.filter (fun e => e.order == k) := by
  induction l with
  | nil => rfl
  | cons x xs ih =>
    simp only [List.insertionSort]
    rw [orderedInsert_filter_order]
    by_cases hx : x.order == k
    · simp [hx, ih, List.filter_cons]
    · simp [hx, ih, List.filter_cons]

theorem hook_adds_virtual (host : List EntrypointInfo) (all : List LayerEntrypointInfo)
    (hhost : ∀ e ∈ host, e.type ≠ EntrypointType.background)
    (hbg : ∃ le ∈ all, le.info.type = EntrypointType.background) :
    entrypointsFoundHook host all =
      host ++ (all.filter (fun e => !(e.info.type == EntrypointType.background))).map
        (fun e => e.info) ++ [virtualBackground] := by
  have hfind : ((host ++
      (all.filter (fun e => !(e.info.type == EntrypointType.background))).map
        (fun e => e.info)).find? (fun e => e.type == EntrypointType.background)) = none := by
    rw [List.find?_eq_none]
    intro x hx
    rcases List.mem_append.1 hx with h | h
    · simpa using hhost x h
    · obtain ⟨le, hle, hinfo⟩ := List.mem_map.1 h
      have hf := (List.mem_filter.1 hle).2
      simp only [Bool.not_eq_true'] at hf
      rw [← hinfo]
      simpa using hf
  have hne : (layerBackgroundsOf all).isEmpty = false := by
    obtain ⟨le, hle, ht⟩ := hbg
    have hmem : le ∈ layerBackgroundsOf all :=
      List.mem_filter.2 ⟨hle, by simpa using ht⟩
    have := List.ne_nil_of_mem hmem
    simpa [List.isEmpty_iff] using this
  simp only [entrypointsFoundHook, hfind, hne, Option.isNone_none, Bool.not_false,
    Bool.and_self, if_true, List.append_assoc]

/-- Claim C4: when the host declares no background entrypoint and at least
one layer supplies one, the hook's output is the host list, the
non-background layer entrypoints, and exactly one appended virtual
background entrypoint named `background`; the handler list the virtual
module composes is the layer backgrounds sorted ascending by `order`,
stably (elements of equal order keep discovery order), as a permutation of
the discovered backgrounds; and the generated runner executes the handlers
strictly sequentially, feeding each handler's result to the next. -/
theorem virtual_background_composition {α : Type} (host : List EntrypointInfo)
    (all : List LayerEntrypointInfo)
    (hhost : ∀ e ∈ host, e.type ≠ EntrypointType.background)
    (hbg : ∃ le ∈ all, le.info.type = EntrypointType.background) :
    entrypointsFoundHook host all =
      host ++ (all.filter (fun e => !(e.info.type == EntrypointType.background))).map
        (fun e => e.info) ++ [virtualBackground]
    ∧ List.Sorted (fun a b : LayerEntrypointInfo => a.order ≤ b.order)
        (sortedLayerBackgrounds all)
    ∧ (∀ k : Int, (sortedLayerBackgrounds all).filter (fun e => e.order == k)
        = (layerBackgroundsOf all).filter (fun e => e.order == k))
    ∧ List.Perm (sortedLayerBackgrounds all) (layerBackgroundsOf all)
    ∧ (∀ (f : α → α) (hs : List (α → α)) (init : α),
        runAll (f :: hs) init = runAll hs (f init))
    ∧ (∀ init : α, runAll ([] : List (α → α)) init = init) := by
  refine ⟨hook_adds_virtual host all hhost hbg, ?_, ?_, ?_, ?_, ?_⟩
  · exact List.sorted_insertionSort _ _
  · intro k
    exact insertionSort_filter_order (layerBackgroundsOf all) k
  · exact List.perm_insertionSort _ _
  · intro f hs init
    rfl
  · intro init
    rfl

/-- Concrete run of `virtual_background_composition`: one layer background
and an empty host produce exactly the virtual entrypoint, and the runner
chains two handlers sequentially. -/
theorem virtual_background_composition_witness :
    entrypointsFoundHook []
      [{ order := 10, layerName := "a", entrypointName := "background",
         info := { name := "background", inputPath := "/proj/layers/a/entrypoints/background.ts",
                   type := .background } }] = [virtualBackground]
    ∧ runAll [fun n => n + 1, fun n => n * 2] (0 : Nat) = 2 := by
  have h := virtual_background_composition (α := Nat) []
    [{ order := 10, layerName := "a", entrypointName := "background",
       info := { name := "background", inputPath := "/proj/layers/a/entrypoints/background.ts",
                 type := .background } }]
    (by intro e he; simp at he) (by decide)
  refine ⟨(h.1).trans (by decide), ?_⟩
  have hc1 := h.2.2.2.2.1 (fun n => n + 1) [fun n => n * 2] 0
  have hc2 := h.2.2.2.2.1 (fun n => n * 2) [] ((fun n : Nat => n + 1) 0)
  have hn := h.2.2.2.2.2 ((fun n : Nat => n * 2) ((fun n : Nat => n + 1) 0))
  exact hc1.trans (hc2.trans hn)

/-- Refutation of claim C5 as stated: for the declared qualified entry
`'x.content' → 'content/a.ts'` (whose resolved path exists), the produced
entrypoint is named `x` — the portion before the qualifier separator, not
the declared name verbatim — and its kind is content-script, which the
classifier can only have produced from the full key: classifying the
pre-separator portion `x` with the same extension yields unlisted-script. -/
theorem resolveEntrypoints_counterexample :
    resolveEntrypoints { dirs := [], files := ["/proj/layers/demo/content/a.ts"] }
      [("x.content", "content/a.ts")] "/proj/layers/demo" =
      [{ name := "x", inputPath := "/proj/layers/demo/content/a.ts",
         type := .contentScript }]
    ∧ "x" ≠ "x.content"
    ∧ determineEntrypointType "x" ".ts" ≠ .contentScript := by
  decide

/-- Claim C5 (amended): in explicit entrypoint mode, every produced
entrypoint stems from a declared entry with a non-empty path whose resolved
location exists; its name is the portion of the declared key before the
qualifier separator, and its kind is computed by the classifier from the
full declared key together with the resolved file's extension. -/
theorem resolveEntrypoints_shape (fs : Fs) (config : List (String × String))
    (layerPath : String) (e : EntrypointInfo)
    (he : e ∈ resolveEntrypoints fs config layerPath) :
    ∃ kp ∈ config, kp.2 ≠ ""
      ∧ existsSync fs (resolvePath layerPath kp.2) = true
      ∧ e.inputPath = resolvePath layerPath kp.2
      ∧ e.name = keyName kp.1
      ∧ e.type = determineEntrypointType kp.1 (extname (resolvePath layerPath kp.2)) := by
  simp only [resolveEntrypoints, List.mem_filterMap] at he
  obtain ⟨kp, hkp, hf⟩ := he
  by_cases h1 : kp.2 = ""
  · simp [h1] at hf
  · rw [if_pos h1] at hf
    by_cases h2 : existsSync fs (resolvePath layerPath kp.2) = true
    · rw [if_pos h2] at hf
      refine ⟨kp, hkp, h1, h2, ?_, ?_, ?_⟩ <;> rw [← Option.some_inj.1 hf]
    · rw [if_neg h2] at hf
      exact absurd hf (by simp)

/-- Concrete run of `resolveEntrypoints_shape` at the qualified entry
`'x.content'`. -/
theorem resolveEntrypoints_shape_witness :
    ∃ kp ∈ [("x.content", "content/a.ts")], kp.2 ≠ ""
      ∧ existsSync { dirs := [], files := ["/proj/layers/demo/content/a.ts"] }
          (resolvePath "/proj/layers/demo" kp.2) = true
      ∧ ({ name := "x", inputPath := "/proj/layers/demo/content/a.ts",
           type := .contentScript } : EntrypointInfo).inputPath =
          resolvePath "/proj/layers/demo" kp.2
      ∧ ({ name := "x", inputPath := "/proj/layers/demo/content/a.ts",
           type := .contentScript } : EntrypointInfo).name = keyName kp.1
      ∧ ({ name := "x", inputPath := "/proj/layers/demo/content/a.ts",
           type := .contentScript } : EntrypointInfo).type =
          determineEntrypointType kp.1 (extname (resolvePath "/proj/layers/demo" kp.2)) := by
  exact resolveEntrypoints_shape
    { dirs := [], files := ["/proj/layers/demo/content/a.ts"] }
    [("x.content", "content/a.ts")] "/proj/layers/demo"
    { name := "x", inputPath := "/proj/layers/demo/content/a.ts", type := .contentScript }
    (by decide)

/-- Refutation of claim C6 as stated: an entrypoints folder holding both
`foo.ts` and `foo.css` makes a single scan call return two entries with the
same name `foo`. -/
theorem scan_duplicate_names_counterexample :
    (scanLayerEntrypoints ⟨[("/proj/layers/demo/entrypoints", ["foo.ts", "foo.css"])], []⟩
        "/proj/layers/demo").map (fun e => e.name) = ["foo", "foo"]
    ∧ ¬ ((scanLayerEntrypoints ⟨[("/proj/layers/demo/entrypoints", ["foo.ts", "foo.css"])], []⟩
        "/proj/layers/demo").map (fun e => e.name)).Nodup := by
  decide

theorem readdirSync_of_not_exists (fs : Fs) (p : String)
    (h : existsSync fs p = false) : readdirSync fs p = [] := by
  simp only [existsSync, Bool.or_eq_false_iff] at h
  have hfind : fs.dirs.find? (fun d => d.1 == p) = none := by
    rw [List.find?_eq_none]
    intro d hd
    have := h.2
    rw [List.any_eq_false] at this
    simpa using this d hd
  simp [readdirSync, hfind]

/-- Claim C6 (amended): one scan call returns exactly one entry per accepted
directory entry, its name derived from the file or directory name, with no
de-duplication — so the returned names are the derived names in directory
order, and they are pairwise distinct exactly when the derived names are
(duplicate derived names, as with `foo.ts` plus `foo.css`, are returned
as-is). -/
theorem scan_names_characterization (fs : Fs) (layerPath : String) :
    (scanLayerEntrypoints fs layerPath).map (fun e => e.name) =
      (readdirSync fs (joinPath layerPath "entrypoints")).filterMap
        (scanEntryName fs (joinPath layerPath "entrypoints"))
    ∧ (((readdirSync fs (joinPath layerPath "entrypoints")).filterMap
          (scanEntryName fs (joinPath layerPath "entrypoints"))).Nodup →
        ((scanLayerEntrypoints fs layerPath).map (fun e => e.name)).Nodup) := by
  have hmain : (scanLayerEntrypoints fs layerPath).map (fun e => e.name) =
      (readdirSync fs (joinPath layerPath "entrypoints")).filterMap
        (scanEntryName fs (joinPath layerPath "entrypoints")) := by
    by_cases hex : existsSync fs (joinPath layerPath "entrypoints") = true
    · simp only [scanLayerEntrypoints, hex, if_true]
      induction readdirSync fs (joinPath layerPath "entrypoints") with
      | nil => rfl
      | cons entry rest ih =>
        rw [List.filterMap_cons, List.filterMap_cons]
        by_cases hc :
            scanEntryOk (scanEntryPair fs (joinPath layerPath "entrypoints") entry) = true
        · simp only [scanEntryName, hc, if_true, List.map_append, List.map_cons,
            List.map_nil, ih]
        · have hc' :
            scanEntryOk (scanEntryPair fs (joinPath layerPath "entrypoints") entry) = false := by
            simpa using hc
          simp only [scanEntryName, hc', Bool.false_eq_true, if_false]
          exact ih
    · have hex' : existsSync fs (joinPath layerPath "entrypoints") = false := by
        simpa using hex
      rw [readdirSync_of_not_exists fs _ hex']
      simp [scanLayerEntrypoints, hex']
  exact ⟨hmain, fun h => hmain ▸ h⟩

/-- Concrete run of `scan_names_characterization`: distinct derived names
give pairwise distinct entry names. -/
theorem scan_names_characterization_witness :
    ((scanLayerEntrypoints ⟨[("/proj/layers/demo/entrypoints", ["a.ts", "b.ts"])], []⟩
        "/proj/layers/demo").map (fun e => e.name)).Nodup := by
  exact (scan_names_characterization
    ⟨[("/proj/layers/demo/entrypoints", ["a.ts", "b.ts"])], []⟩
    "/proj/layers/demo").2 (by decide)

/-- Claim C10: source normalisation yields one options object per declared
source, in declaration order, with the source path resolved against the
root directory, bare strings promoted to options objects, `sourceAlias`
defaulted to the template string when unset, and an undefined input
defaulting to the single source `'layers/*'`. -/
theorem resolveSources_spec (rootDir : String) :
    resolveSources rootDir .undef =
      [{ source := resolvePath rootDir "layers/*", sourceAlias := some "#{name}" }]
    ∧ (∀ s, resolveSources rootDir (.single s) = resolveSources rootDir (.many [.str s]))
    ∧ (∀ items, (resolveSources rootDir (.many items)).length = items.length)
    ∧ (∀ (items : List SourceItem) (i : Nat) (item : SourceItem), items[i]? = some item →
        ∃ out, (resolveSources rootDir (.many items))[i]? = some out
          ∧ out.source = resolvePath rootDir (itemSource item)
          ∧ out.sourceAlias = some ((itemAlias item).getD "#{name}")
          ∧ (∀ s, item = .str s →
              out = { source := resolvePath rootDir s, sourceAlias := some "#{name}" })) := by
  refine ⟨rfl, fun s => rfl, ?_, ?_⟩
  · intro items
    simp [resolveSources]
  · intro items i item hit
    cases item with
    | str s =>
      refine ⟨{ source := resolvePath rootDir s, sourceAlias := some "#{name}" },
        ?_, rfl, rfl, ?_⟩
      · simp [resolveSources, List.getElem?_map, hit]
      · intro s' heq
        cases heq
        rfl
    | opts o =>
      refine ⟨{ o with
                sourceAlias := some ((o.sourceAlias).getD "#{name}"),
                source := resolvePath rootDir o.source }, ?_, rfl, rfl, ?_⟩
      · simp [resolveSources, List.getElem?_map, hit]
      · intro s' heq
        exact absurd heq (by simp)

/-- Concrete run of `resolveSources_spec`: the bare string `'layers/*'`
becomes a full options object resolved against the root. -/
theorem resolveSources_spec_witness :
    (resolveSources "/proj" (.many [.str "layers/*"]))[0]? =
      some { source := "/proj/layers/*", sourceAlias := some "#{name}" } := by
  obtain ⟨out, h1, h2, h3, h4⟩ :=
    (resolveSources_spec "/proj").2.2.2 [.str "layers/*"] 0 (.str "layers/*") rfl
  rw [h1, h4 "layers/*" rfl]
  decide
